import Mathlib

/-!
Verification of the scrum-poker session registry and room synchronization
core (Go backend, packages `game`, `models`).  The Go code is shallowly
embedded: Go maps become association lists, `time.Time` becomes `Int`
(milliseconds), `float64` arithmetic in the average computation becomes `ℚ`,
and the sources of nondeterminism (`math/rand`, `crypto/rand`, `time.Now`)
become explicit parameters.  Mutex operations, websocket connections, the
persistence repository and logging are connection/IO plumbing with no effect
on the room state and are omitted.
-/

/-! ## Association-list operations, modelling Go maps -/

/-- Go map lookup `l[k]` (comma-ok form): the value stored under `k`. -/
def lookupKey {α : Type} : List (String × α) → String → Option α
  | [], _ => none
  | (k, v) :: rest, key => if key = k then some v else lookupKey rest key

/-- Go map membership test `_, ok := l[k]`. -/
def containsKey {α : Type} (l : List (String × α)) (k : String) : Bool :=
  (lookupKey l k).isSome

/-- Go map update `l[k] = v`: overwrite the entry if present, else append. -/
def insertKey {α : Type} : List (String × α) → String → α → List (String × α)
  | [], k, v => [(k, v)]
  | (k', v') :: rest, k, v =>
    if k = k' then (k, v) :: rest else (k', v') :: insertKey rest k v

/-- Go map deletion `delete(l, k)`. -/
def eraseKey {α : Type} : List (String × α) → String → List (String × α)
  | [], _ => []
  | (k', v') :: rest, k => if k = k' then rest else (k', v') :: eraseKey rest k

/-- The keys of an association list. -/
def keysOf {α : Type} (l : List (String × α)) : List String :=
  l.map (·.1)

/-- String-set membership, for the `usedAvatars` set. -/
def memStr : List String → String → Bool
  | [], _ => false
  | a :: rest, s => if s = a then true else memStr rest s

/-- String-set insertion (Go `m[s] = true`). -/
def insertStr (l : List String) (s : String) : List String :=
  if memStr l s then l else s :: l

/-- String-set removal (Go `m[s] = false` followed by `!m[s]` tests). -/
def removeStr (l : List String) (s : String) : List String :=
  l.filter (fun a => a ≠ s)

/-- Go `strings.ToUpper`, restricted to ASCII (room codes are hex strings, so
the ASCII fragment is the relevant one). -/
def asciiUpper (s : String) : String :=
  ⟨s.data.map Char.toUpper⟩

/-! ## The `models` package: wire-facing data (models.go) -/

namespace models

/-- `models.Player`: the API model of a player; `Vote` is the empty string
when withheld (`omitempty` on the wire). -/
structure Player where
  ID : String
  Name : String
  Avatar : String
  HasVoted : Bool
  Vote : String
  IsHost : Bool
deriving DecidableEq, Repr

/-- `models.VotingScale`; the Go field `Type` is rendered `scaleType`. -/
structure VotingScale where
  scaleType : String
  name : String
  values : List String
deriving DecidableEq, Repr

/-- `models.RoomState`: the snapshot broadcast to one viewer. -/
structure RoomState where
  Code : String
  Players : List models.Player
  Revealed : Bool
  CurrentPlayerID : String
  HostID : String
  Scale : models.VotingScale
  TimerEndTime : Option Int
  TimerAutoReveal : Bool
deriving DecidableEq, Repr

/-- `models.VotingResult`; `Average` is Go `float64`, embedded as `ℚ`. -/
structure VotingResult where
  Votes : List (String × String)
  Average : ℚ
  Revealed : Bool
deriving DecidableEq, Repr

/-- `models.PresetScales[models.ScaleFibonacci]`. -/
def fibonacciScale : models.VotingScale :=
  ⟨"fibonacci", "Fibonacci", ["1", "2", "3", "5", "8", "13", "21", "?"]⟩

/-- `models.PresetScales`, keyed by the scale-type string. -/
def PresetScales : List (String × models.VotingScale) :=
  [("fibonacci", models.fibonacciScale),
   ("tshirt", ⟨"tshirt", "T-Shirt Sizes", ["XS", "S", "M", "L", "XL", "XXL", "?"]⟩),
   ("powers2", ⟨"powers2", "Powers of 2", ["1", "2", "4", "8", "16", "32", "64", "?"]⟩)]

end models

/-! ## The `game` package: Player (player.go) -/

/-- `game.Player`: per-connection mutable state.  The websocket connection,
rate limiter, back-pointer to the room and the per-connection mutex are
connection plumbing and omitted. -/
structure Player where
  ID : String
  Name : String
  Avatar : String
  IsHost : Bool
  Vote : String
  HasVoted : Bool
deriving DecidableEq, Repr

/-- `Player.SetVote`: an empty token clears the vote, a non-empty one sets it. -/
def Player.SetVote (p : Player) (vote : String) : Player :=
  if vote = "" then { p with Vote := "", HasVoted := false }
  else { p with Vote := vote, HasVoted := true }

/-- `Player.ResetVote`. -/
def Player.ResetVote (p : Player) : Player :=
  { p with HasVoted := false, Vote := "" }

/-- `Player.ToModel`: the vote value is copied into the API model only when
`includeVote` is true; otherwise the model's `Vote` stays at its zero value. -/
def Player.ToModel (p : Player) (includeVote : Bool) : models.Player :=
  { ID := p.ID, Name := p.Name, Avatar := p.Avatar, HasVoted := p.HasVoted,
    IsHost := p.IsHost, Vote := if includeVote then p.Vote else "" }

/-- `game.Avatars`. -/
def Avatars : List String :=
  ["sheriff", "outlaw", "cowgirl", "prospector", "banker", "deputy",
   "saloon-owner", "bounty-hunter"]

/-! ## The `game` package: Room (room.go) -/

/-- `game.Room`.  `Players` is the Go map `map[string]*Player` as an
association list; times are `Int`; the mutex and the timer-cancel channel are
omitted. -/
structure Room where
  Code : String
  Players : List (String × Player)
  Revealed : Bool
  HostID : String
  CreatedAt : Int
  LastActive : Int
  ExpiryHours : Int
  Scale : models.VotingScale
  TimerEndTime : Option Int
  TimerAutoReveal : Bool
  usedAvatars : List String
deriving DecidableEq, Repr

/-- `game.MaxPlayers`. -/
def MaxPlayers : Nat := 30

/-- `game.NewRoom`: fresh room on the default Fibonacci scale; `now` stands
for `time.Now()`. -/
def NewRoom (code : String) (expiryHours : Int) (now : Int) : Room :=
  { Code := code, Players := [], Revealed := false, HostID := "",
    CreatedAt := now, LastActive := now, ExpiryHours := expiryHours,
    Scale := models.fibonacciScale, TimerEndTime := none,
    TimerAutoReveal := false, usedAvatars := [] }

/-- `game.NewRoomWithScale`: preset lookup with Fibonacci fallback. -/
def NewRoomWithScale (code : String) (expiryHours : Int) (scaleType : String)
    (now : Int) : Room :=
  let scale := match lookupKey models.PresetScales scaleType with
    | some s => s
    | none => models.fibonacciScale
  { Code := code, Players := [], Revealed := false, HostID := "",
    CreatedAt := now, LastActive := now, ExpiryHours := expiryHours,
    Scale := scale, TimerEndTime := none, TimerAutoReveal := false,
    usedAvatars := [] }

/-- `Room.assignAvatar`: first catalogue entry not in `usedAvatars` (marking
it used); once the catalogue is exhausted, a random entry plus a random
numeric suffix, leaving `usedAvatars` unchanged.  `randIdx`/`randSuffix`
stand for the two `rand.Intn` draws. -/
def assignAvatar (used : List String) (randIdx randSuffix : Nat) :
    String × List String :=
  match Avatars.find? (fun a => !(memStr used a)) with
  | some a => (a, insertStr used a)
  | none =>
    (Avatars.getD (randIdx % Avatars.length) "" ++ "-" ++
      toString (randSuffix % 1000), used)

/-- `Room.AddPlayer`: capacity check, avatar assignment, first-player-becomes-
host, insertion into the player map, `LastActive` touch. -/
def Room.AddPlayer (r : Room) (p : Player) (randIdx randSuffix : Nat)
    (now : Int) : Bool × Room :=
  if r.Players.length ≥ MaxPlayers then (false, r)
  else
    let av := assignAvatar r.usedAvatars randIdx randSuffix
    let p1 := { p with Avatar := av.1 }
    if r.Players.length = 0 then
      let p2 := { p1 with IsHost := true }
      (true, { r with Players := insertKey r.Players p2.ID p2,
                      HostID := p2.ID, usedAvatars := av.2, LastActive := now })
    else
      (true, { r with Players := insertKey r.Players p1.ID p1,
                      usedAvatars := av.2, LastActive := now })

/-- `Room.RemovePlayer`: delete the player, free its avatar and, when the
host left a still non-empty room, promote the first remaining player (the
Go `for ... range` pick is modelled as the head of the remaining list).
`LastActive` is touched whether or not the player existed. -/
def Room.RemovePlayer (r : Room) (playerID : String) (now : Int) : Room :=
  match lookupKey r.Players playerID with
  | none => { r with LastActive := now }
  | some player =>
    let used := removeStr r.usedAvatars player.Avatar
    let players := eraseKey r.Players playerID
    if r.HostID = playerID then
      match players with
      | [] => { r with Players := [], usedAvatars := used, LastActive := now }
      | (id, q) :: rest =>
        { r with Players := (id, { q with IsHost := true }) :: rest,
                 HostID := id, usedAvatars := used, LastActive := now }
    else
      { r with Players := players, usedAvatars := used, LastActive := now }

/-- `Room.Vote`: always succeeds for a known player (no `Revealed` check),
fails with no state change for an unknown one. -/
def Room.Vote (r : Room) (playerID vote : String) (now : Int) : Bool × Room :=
  match lookupKey r.Players playerID with
  | some player =>
    (true, { r with Players := insertKey r.Players playerID (player.SetVote vote),
                    LastActive := now })
  | none => (false, r)

/-- `Room.Reveal`: host-only; a non-host request returns false with the room
untouched. -/
def Room.Reveal (r : Room) (playerID : String) (now : Int) : Bool × Room :=
  if r.HostID = playerID then
    (true, { r with Revealed := true, LastActive := now })
  else (false, r)

/-- `Room.Reset`: clears `Revealed` and every player's vote. -/
def Room.Reset (r : Room) (now : Int) : Room :=
  { r with Revealed := false,
           Players := r.Players.map (fun kp => (kp.1, kp.2.ResetVote)),
           LastActive := now }

/-- `Room.IsEmpty`. -/
def Room.IsEmpty (r : Room) : Bool :=
  r.Players.length = 0

/-- `Room.GetState`: one API model per player via `ToModel r.Revealed`; the
timer deadline is included only while still in the future (`now` stands for
`time.Now()` in milliseconds, `TimerEndTime.UnixMilli` is the identity in
this embedding). -/
def Room.GetState (r : Room) (forPlayerID : String) (now : Int) :
    models.RoomState :=
  { Code := r.Code,
    Players := r.Players.map (fun kp => kp.2.ToModel r.Revealed),
    Revealed := r.Revealed,
    CurrentPlayerID := forPlayerID,
    HostID := r.HostID,
    Scale := r.Scale,
    TimerAutoReveal := r.TimerAutoReveal,
    TimerEndTime := match r.TimerEndTime with
      | some t => if now < t then some t else none
      | none => none }

/-! ## Voting results (room.go, `GetVotingResults`) -/

/-- Digit test for the `strconv.ParseFloat` model. -/
def isDigit (c : Char) : Bool :=
  '0' ≤ c && c ≤ '9'

/-- Decimal value of a digit list (callers guard with `allDigits`). -/
def digitsToNat (l : List Char) : Nat :=
  l.foldl (fun acc c => acc * 10 + (c.toNat - 48)) 0

/-- All-digits test. -/
def allDigits (l : List Char) : Bool :=
  l.all isDigit

/-- Split a character list at the first dot: integer part and, when a dot is
present, the fractional remainder. -/
def splitAtDot : List Char → List Char × Option (List Char)
  | [] => ([], none)
  | c :: rest =>
    if c = '.' then ([], some rest)
    else
      let s := splitAtDot rest
      (c :: s.1, s.2)

/-- Model of `strconv.ParseFloat(s, 64)` restricted to plain decimal
numerals (optional sign, digits, optional fractional part), which covers
every numeric vote token; exponents, hex floats and Inf/NaN spellings are
outside the model.  The result is exact (`ℚ` in place of `float64`). -/
def parseFloat? (s : String) : Option ℚ :=
  let signed : Int × List Char :=
    match s.data with
    | '-' :: rest => (-1, rest)
    | '+' :: rest => (1, rest)
    | l => (1, l)
  let parts := splitAtDot signed.2
  match parts.2 with
  | none =>
    if parts.1 ≠ [] ∧ allDigits parts.1 then
      some (signed.1 * (digitsToNat parts.1 : ℚ))
    else none
  | some frac =>
    if (parts.1 ≠ [] ∨ frac ≠ []) ∧ allDigits parts.1 ∧ allDigits frac then
      some (signed.1 *
        ((digitsToNat parts.1 : ℚ) + (digitsToNat frac : ℚ) / (10 : ℚ) ^ frac.length))
    else none

/-- The single pass of `GetVotingResults` over the player map: collects the
votes of players with `HasVoted`, and the running sum and count of those
votes that parse as numbers. -/
def collectVotes : List (String × Player) → List (String × String) × ℚ × Nat
  | [] => ([], 0, 0)
  | (id, p) :: rest =>
    let acc := collectVotes rest
    if p.HasVoted then
      match parseFloat? p.Vote with
      | some v => ((id, p.Vote) :: acc.1, acc.2.1 + v, acc.2.2 + 1)
      | none => ((id, p.Vote) :: acc.1, acc.2.1, acc.2.2)
    else acc

/-- `Room.GetVotingResults`: votes of all players who voted, and the average
of the numerically parsable ones (zero when none parse). -/
def Room.GetVotingResults (r : Room) : models.VotingResult :=
  let acc := collectVotes r.Players
  { Votes := acc.1,
    Average := if acc.2.2 > 0 then acc.2.1 / (acc.2.2 : ℚ) else 0,
    Revealed := r.Revealed }

/-! ## The `game` package: Hub (hub.go) -/

/-- `game.MaxRooms`. -/
def MaxRooms : Nat := 1000

/-- `game.Hub`: the code-to-room registry.  The repository, mutex, cleanup
ticker and done channel are omitted. -/
structure Hub where
  Rooms : List (String × Room)
  DefaultExpiry : Int
deriving DecidableEq, Repr

/-- Hex digit characters as produced by `encoding/hex` (lowercase). -/
def hexDigit (n : Nat) : Char :=
  if n < 10 then Char.ofNat (48 + n) else Char.ofNat (87 + n)

/-- `hex.EncodeToString` over a byte list. -/
def hexEncode (bytes : List Nat) : String :=
  ⟨bytes.flatMap (fun b => [hexDigit (b % 256 / 16), hexDigit (b % 16)])⟩

/-- One candidate room code: `strings.ToUpper(hex.EncodeToString(bytes))`. -/
def candidateCode (bytes : List Nat) : String :=
  asciiUpper (hexEncode bytes)

/-- `Hub.generateRoomCode`: the `crypto/rand` retry loop, with the random
draws made explicit as a list of byte triples; returns the first candidate
code not already registered.  The Go loop never terminates unsuccessfully;
`none` here only means the supplied entropy ran out (a modelling artifact). -/
def generateRoomCode (rooms : List (String × Room)) :
    List (List Nat) → Option String
  | [] => none
  | bs :: rest =>
    let code := candidateCode bs
    if containsKey rooms code then generateRoomCode rooms rest
    else some code

/-- `Hub.CreateRoomWithScale`: capacity check against `MaxRooms`, default
expiry substitution, fresh-code generation, insertion.  The best-effort
persistence call is omitted. -/
def Hub.CreateRoomWithScale (h : Hub) (expiryHours : Int) (scaleType : String)
    (entropy : List (List Nat)) (now : Int) : Option Room × Hub :=
  if h.Rooms.length ≥ MaxRooms then (none, h)
  else
    let e := if expiryHours ≤ 0 then h.DefaultExpiry else expiryHours
    match generateRoomCode h.Rooms entropy with
    | none => (none, h)
    | some code =>
      let room := NewRoomWithScale code e scaleType now
      (some room, { h with Rooms := insertKey h.Rooms code room })

/-- `Hub.GetRoom`: the lookup key is upper-cased first. -/
def Hub.GetRoom (h : Hub) (code : String) : Option Room :=
  lookupKey h.Rooms (asciiUpper code)

/-- `Hub.DeleteRoom`: deletion under the verbatim key (no upper-casing). -/
def Hub.DeleteRoom (h : Hub) (code : String) : Hub :=
  { h with Rooms := eraseKey h.Rooms code }

/-- The deferred body of `Hub.ScheduleDeleteIfEmpty`, applied to the hub
state at the moment the grace period elapses: delete the room only if it is
still registered under `code` and still empty. -/
def Hub.ScheduleDeleteIfEmptyCheck (h : Hub) (code : String) : Hub :=
  match lookupKey h.Rooms code with
  | some room =>
    if room.IsEmpty then { h with Rooms := eraseKey h.Rooms code } else h
  | none => h

/-! ## Operation sequences over a room (for the host-uniqueness invariant) -/

/-- One registry-visible mutation of the player set: an `AddPlayer` call
(with its two `rand.Intn` draws and its `time.Now`) or a `RemovePlayer`
call. -/
inductive RoomOp where
  | addP (p : Player) (randIdx randSuffix : Nat) (now : Int)
  | removeP (id : String) (now : Int)
deriving DecidableEq, Repr

/-- Apply one operation (the `Bool` result of `AddPlayer` is dropped). -/
def applyOp (r : Room) : RoomOp → Room
  | .addP p ri rs t => (r.AddPlayer p ri rs t).2
  | .removeP id t => r.RemovePlayer id t

/-- Run a sequence of operations. -/
def runOps (r : Room) : List RoomOp → Room
  | [] => r
  | op :: rest => runOps (applyOp r op) rest

/-- Well-formedness of one operation against the current state: an added
player arrives non-host (as every `NewPlayer` call site outside tests
constructs it) and under an ID not already present (player IDs are generated
fresh per connection). -/
def wfOp (r : Room) : RoomOp → Bool
  | .addP p _ _ _ => !p.IsHost && !(containsKey r.Players p.ID)
  | .removeP _ _ => true

/-- Well-formedness of a whole operation sequence from a given state. -/
def wfTrace : Room → List RoomOp → Bool
  | _, [] => true
  | r, op :: rest => wfOp r op && wfTrace (applyOp r op) rest

/-! ## Association-list lemmas -/

theorem lookupKey_insertKey_self {α : Type} (l : List (String × α)) (k : String)
    (v : α) : lookupKey (insertKey l k v) k = some v := by
  induction l with
  | nil => simp [insertKey, lookupKey]
  | cons hd tl ih =>
    obtain ⟨k', v'⟩ := hd
    by_cases h : k = k'
    · simp [insertKey, h, lookupKey]
    · simp [insertKey, h, lookupKey, ih]

theorem mem_of_lookupKey_eq_some {α : Type} {l : List (String × α)} {k : String}
    {v : α} (h : lookupKey l k = some v) : (k, v) ∈ l := by
  induction l with
  | nil => simp [lookupKey] at h
  | cons hd tl ih =>
    obtain ⟨k', v'⟩ := hd
    by_cases hk : k = k'
    · subst hk
      simp [lookupKey] at h
      subst h
      exact List.mem_cons_self _ _
    · simp [lookupKey, hk] at h
      exact List.mem_cons_of_mem _ (ih h)

theorem lookupKey_eq_none_of_not_mem_keys {α : Type} {l : List (String × α)}
    {k : String} (h : k ∉ keysOf l) : lookupKey l k = none := by
  induction l with
  | nil => rfl
  | cons hd tl ih =>
    obtain ⟨k', v'⟩ := hd
    simp [keysOf] at h
    simp [lookupKey, h.1, ih (by simp [keysOf, h.2])]

theorem mem_keys_of_lookupKey_isSome {α : Type} {l : List (String × α)}
    {k : String} (h : (lookupKey l k).isSome) : k ∈ keysOf l := by
  by_contra hk
  rw [lookupKey_eq_none_of_not_mem_keys hk] at h
  simp at h

theorem insertKey_of_fresh {α : Type} {l : List (String × α)} {k : String}
    (v : α) (h : containsKey l k = false) : insertKey l k v = l ++ [(k, v)] := by
  induction l with
  | nil => rfl
  | cons hd tl ih =>
    obtain ⟨k', v'⟩ := hd
    by_cases hk : k = k'
    · subst hk
      simp [containsKey, lookupKey] at h
    · simp [containsKey, lookupKey, hk] at h
      simp [insertKey, hk, ih (by simp [containsKey, h])]

theorem eraseKey_sublist {α : Type} (l : List (String × α)) (k : String) :
    (eraseKey l k).Sublist l := by
  induction l with
  | nil => simp [eraseKey]
  | cons hd tl ih =>
    obtain ⟨k', v'⟩ := hd
    by_cases hk : k = k'
    · simp [eraseKey, hk]
    · simpa [eraseKey, hk] using List.Sublist.cons₂ (k', v') ih

theorem mem_of_mem_eraseKey {α : Type} {l : List (String × α)} {k : String}
    {kp : String × α} (h : kp ∈ eraseKey l k) : kp ∈ l :=
  (eraseKey_sublist l k).mem h

theorem keysOf_eraseKey_nodup {α : Type} {l : List (String × α)} {k : String}
    (h : (keysOf l).Nodup) : (keysOf (eraseKey l k)).Nodup := by
  unfold keysOf at h ⊢
  exact ((eraseKey_sublist l k).map (fun kp => kp.1)).nodup h

theorem key_ne_of_mem_eraseKey {α : Type} {l : List (String × α)} {k : String}
    {kp : String × α} (hnd : (keysOf l).Nodup) (h : kp ∈ eraseKey l k) :
    kp.1 ≠ k := by
  induction l with
  | nil => simp [eraseKey] at h
  | cons hd tl ih =>
    obtain ⟨k', v'⟩ := hd
    simp [keysOf] at hnd
    by_cases hk : k = k'
    · subst hk
      simp [eraseKey] at h
      intro hbad
      exact hnd.1 kp.2 (by simpa [← hbad] using h)
    · simp [eraseKey, hk] at h
      rcases h with h | h
      · subst h
        simpa using fun hbad => hk hbad.symm
      · exact ih (by simpa [keysOf] using hnd.2) h

theorem containsKey_eraseKey_of_ne {α : Type} {l : List (String × α)}
    {k k' : String} (hne : k' ≠ k) :
    containsKey (eraseKey l k) k' = containsKey l k' := by
  induction l with
  | nil => rfl
  | cons hd tl ih =>
    obtain ⟨k₀, v₀⟩ := hd
    by_cases hk : k = k₀
    · subst hk
      simp [eraseKey, containsKey, lookupKey, hne]
    · by_cases hk' : k' = k₀
      · simp [eraseKey, hk, containsKey, lookupKey, hk']
      · simpa [eraseKey, hk, containsKey, lookupKey, hk'] using ih

theorem eraseKey_of_not_contains {α : Type} {l : List (String × α)} {k : String}
    (h : containsKey l k = false) : eraseKey l k = l := by
  induction l with
  | nil => rfl
  | cons hd tl ih =>
    obtain ⟨k', v'⟩ := hd
    by_cases hk : k = k'
    · subst hk
      simp [containsKey, lookupKey] at h
    · simp [containsKey, lookupKey, hk] at h
      simp [eraseKey, hk, ih (by simp [containsKey, h])]

theorem lookupKey_eraseKey_self {α : Type} {l : List (String × α)} {k : String}
    (hnd : (keysOf l).Nodup) : lookupKey (eraseKey l k) k = none := by
  apply lookupKey_eq_none_of_not_mem_keys
  intro hk
  simp only [keysOf, List.mem_map] at hk
  obtain ⟨kp, hkp, hkey⟩ := hk
  exact key_ne_of_mem_eraseKey hnd hkp hkey

/-! ## Demo data used by witnesses -/

/-- A player record as the websocket handler constructs it (`NewPlayer` with
`isHost = false`), before the room assigns an avatar. -/
def demoPlayer (id name : String) : Player :=
  { ID := id, Name := name, Avatar := "", IsHost := false, Vote := "",
    HasVoted := false }

/-- A two-player room with `p1` as host, as produced by two `AddPlayer`
calls on a fresh room. -/
def demoRoom : Room :=
  { Code := "TEST",
    Players := [("p1", { demoPlayer "p1" "Alice" with Avatar := "sheriff", IsHost := true }),
                ("p2", { demoPlayer "p2" "Bob" with Avatar := "outlaw" })],
    Revealed := false, HostID := "p1", CreatedAt := 0, LastActive := 0,
    ExpiryHours := 24, Scale := models.fibonacciScale, TimerEndTime := none,
    TimerAutoReveal := false, usedAvatars := ["outlaw", "sheriff"] }

/-! ## C3 Reveal authorization and atomicity -/

/-- C3: a `Reveal` request by anyone other than the host returns false and
leaves the whole room (players, votes, `Revealed`, `HostID`, `LastActive`)
untouched; a request by the host returns true and sets `Revealed`. -/
theorem reveal_authorization (r : Room) (req : String) (now : Int) :
    (req ≠ r.HostID → r.Reveal req now = (false, r)) ∧
    r.Reveal r.HostID now = (true, { r with Revealed := true, LastActive := now }) := by
  constructor
  · intro h
    have hne : ¬ (r.HostID = req) := fun hh => h hh.symm
    simp [Room.Reveal, hne]
  · simp [Room.Reveal]

/-- C3 witness: on the concrete two-player room, the guest's reveal fails
with no state change. -/
theorem reveal_authorization_witness :
    "p2" ≠ demoRoom.HostID ∧ demoRoom.Reveal "p2" 5 = (false, demoRoom) :=
  ⟨by decide, (reveal_authorization demoRoom "p2" 5).1 (by decide)⟩

/-! ## C7 Vote semantics -/

/-- C7: `Vote` succeeds exactly when the player exists (independently of
`Revealed`); success with a non-empty token stores the token and sets
`HasVoted`, success with an empty token clears both, and an unknown player
yields false with no state change. -/
theorem vote_semantics (r : Room) (id tok : String) (now : Int) :
    ((r.Vote id tok now).1 = containsKey r.Players id) ∧
    (containsKey r.Players id = false → r.Vote id tok now = (false, r)) ∧
    (∀ p, lookupKey r.Players id = some p →
      (tok ≠ "" → lookupKey (r.Vote id tok now).2.Players id =
        some { p with Vote := tok, HasVoted := true }) ∧
      (tok = "" → lookupKey (r.Vote id tok now).2.Players id =
        some { p with Vote := "", HasVoted := false })) := by
  refine ⟨?_, ?_, ?_⟩
  · cases hl : lookupKey r.Players id <;>
      simp [Room.Vote, hl, containsKey]
  · intro h
    simp [containsKey] at h
    simp [Room.Vote, h]
  · intro p hl
    constructor
    · intro htok
      simp [Room.Vote, hl, Player.SetVote, htok, lookupKey_insertKey_self]
    · intro htok
      simp [Room.Vote, hl, Player.SetVote, htok, lookupKey_insertKey_self]

/-- C7 witness: on the concrete room, voting "8" for the known guest
succeeds and stores the vote; the success flag matches map membership. -/
theorem vote_semantics_witness :
    lookupKey demoRoom.Players "p2" = some { demoPlayer "p2" "Bob" with Avatar := "outlaw" } ∧
    ("8" : String) ≠ "" ∧
    lookupKey (demoRoom.Vote "p2" "8" 7).2.Players "p2" =
      some { demoPlayer "p2" "Bob" with Avatar := "outlaw", Vote := "8", HasVoted := true } :=
  ⟨by decide, by decide,
    ((vote_semantics demoRoom "p2" "8" 7).2.2
      { demoPlayer "p2" "Bob" with Avatar := "outlaw" } (by decide)).1 (by decide)⟩

/-! ## C2 Vote redaction before reveal -/

/-- Equality of players on every field except `Vote`. -/
def playerObsEq (p q : Player) : Prop :=
  p.ID = q.ID ∧ p.Name = q.Name ∧ p.Avatar = q.Avatar ∧ p.IsHost = q.IsHost ∧
  p.HasVoted = q.HasVoted

/-- Two rooms that differ at most in their players' `Vote` strings (same
players in the same positions with identical `HasVoted` flags, all other
room fields equal). -/
def voteVariant (r₁ r₂ : Room) : Prop :=
  r₁.Code = r₂.Code ∧ r₁.Revealed = r₂.Revealed ∧ r₁.HostID = r₂.HostID ∧
  r₁.CreatedAt = r₂.CreatedAt ∧ r₁.LastActive = r₂.LastActive ∧
  r₁.ExpiryHours = r₂.ExpiryHours ∧ r₁.Scale = r₂.Scale ∧
  r₁.TimerEndTime = r₂.TimerEndTime ∧ r₁.TimerAutoReveal = r₂.TimerAutoReveal ∧
  r₁.usedAvatars = r₂.usedAvatars ∧
  List.Forall₂ (fun kp kq => kp.1 = kq.1 ∧ playerObsEq kp.2 kq.2)
    r₁.Players r₂.Players

theorem toModel_eq_of_obsEq {p q : Player} (h : playerObsEq p q) :
    p.ToModel false = q.ToModel false := by
  obtain ⟨h1, h2, h3, h4, h5⟩ := h
  simp [Player.ToModel, h1, h2, h3, h4, h5]

theorem redacted_map_eq {l₁ l₂ : List (String × Player)}
    (h : List.Forall₂ (fun kp kq => kp.1 = kq.1 ∧ playerObsEq kp.2 kq.2) l₁ l₂) :
    l₁.map (fun kp => kp.2.ToModel false) = l₂.map (fun kp => kp.2.ToModel false) := by
  induction h with
  | nil => rfl
  | cons hd tl ih =>
    simp only [List.map_cons, ih, List.cons.injEq, and_true]
    exact toModel_eq_of_obsEq hd.2

/-- C2: while `Revealed = false`, the snapshot handed to any viewer carries
every player's `HasVoted` flag but no vote token: the snapshot is identical
for any two rooms differing only in vote strings, and every snapshot entry
has an empty `Vote`. -/
theorem vote_redaction (r₁ r₂ : Room) (viewer : String) (now : Int)
    (hrev : r₁.Revealed = false) (hvar : voteVariant r₁ r₂) :
    r₁.GetState viewer now = r₂.GetState viewer now ∧
    ∀ kp ∈ r₁.Players, ∃ m ∈ (r₁.GetState viewer now).Players,
      m.ID = kp.2.ID ∧ m.HasVoted = kp.2.HasVoted ∧ m.Vote = "" := by
  obtain ⟨hc, hrv, hh, hca, hla, he, hs, hte, hta, hua, hps⟩ := hvar
  have hplayers : r₁.Players.map (fun kp => kp.2.ToModel r₁.Revealed) =
      r₂.Players.map (fun kp => kp.2.ToModel r₂.Revealed) := by
    rw [hrev, ← hrv, hrev]
    exact redacted_map_eq hps
  constructor
  · simp only [Room.GetState]
    rw [hplayers, hc, hrv, hh, hs, hte, hta]
  · intro kp hkp
    refine ⟨kp.2.ToModel false, ?_, rfl, rfl, by simp [Player.ToModel]⟩
    simp only [Room.GetState, hrev]
    exact List.mem_map_of_mem _ hkp

/-- The demo guest after voting token `tok`. -/
def votedGuest (tok : String) : Player :=
  { demoPlayer "p2" "Bob" with Avatar := "outlaw", Vote := tok, HasVoted := true }

/-- A copy of the demo room whose guest has privately voted "8". -/
def demoRoomVoted : Room :=
  { demoRoom with
    Players := [("p1", { demoPlayer "p1" "Alice" with Avatar := "sheriff", IsHost := true }),
                ("p2", votedGuest "8")] }

/-- A vote-variant of `demoRoomVoted` in which the guest's stored token is
"13" instead of "8" (same `HasVoted`). -/
def demoRoomVotedAlt : Room :=
  { demoRoomVoted with
    Players := [("p1", { demoPlayer "p1" "Alice" with Avatar := "sheriff", IsHost := true }),
                ("p2", votedGuest "13")] }

/-- C2 witness: the two concrete rooms differing only in the guest's vote
token produce identical snapshots for the host. -/
theorem vote_redaction_witness :
    demoRoomVoted.Revealed = false ∧
    demoRoomVoted.GetState "p1" 3 = demoRoomVotedAlt.GetState "p1" 3 :=
  ⟨by decide,
    (vote_redaction demoRoomVoted demoRoomVotedAlt "p1" 3 (by decide)
      (by refine ⟨rfl, rfl, rfl, rfl, rfl, rfl, rfl, rfl, rfl, rfl, ?_⟩
          simp [demoRoomVoted, demoRoomVotedAlt, playerObsEq, demoPlayer,
            votedGuest])).1⟩

/-! ## C4 Own-vote visibility in snapshots -/

/-- A one-player room whose host has voted "5", with `Revealed = false`. -/
def redactionDemoRoom : Room :=
  { Code := "TEST",
    Players := [("p1", { ID := "p1", Name := "Alice", Avatar := "sheriff",
                         IsHost := true, Vote := "5", HasVoted := true })],
    Revealed := false, HostID := "p1", CreatedAt := 0, LastActive := 0,
    ExpiryHours := 24, Scale := models.fibonacciScale, TimerEndTime := none,
    TimerAutoReveal := false, usedAvatars := ["sheriff"] }

/-- C4 counterexample: the snapshot handed to the very player who cast the
vote does not contain that player's vote token — `GetState` redacts the
viewer's own vote exactly like everyone else's while `Revealed = false`. -/
theorem own_vote_visible_counterexample :
    lookupKey redactionDemoRoom.Players "p1" =
      some { ID := "p1", Name := "Alice", Avatar := "sheriff", IsHost := true,
             Vote := "5", HasVoted := true } ∧
    redactionDemoRoom.Revealed = false ∧
    ¬ ∃ m ∈ (redactionDemoRoom.GetState "p1" 0).Players,
        m.ID = "p1" ∧ m.Vote = "5" := by
  decide

/-- C4 (amended): while `Revealed = false` the snapshot redacts every vote
including the viewer's own — the entry for the viewer still reports
`HasVoted` but carries an empty `Vote`. -/
theorem own_vote_redacted (r : Room) (id : String) (p : Player) (now : Int)
    (hrev : r.Revealed = false) (hmem : (id, p) ∈ r.Players)
    (hv : p.HasVoted = true) :
    ∃ m ∈ (r.GetState id now).Players,
      m.ID = p.ID ∧ m.HasVoted = true ∧ m.Vote = "" := by
  refine ⟨p.ToModel false, ?_, rfl, by simp [Player.ToModel, hv],
    by simp [Player.ToModel]⟩
  simp only [Room.GetState, hrev]
  exact List.mem_map_of_mem _ hmem

/-- C4 witness for the amended claim: in the concrete one-player room, the
voter's snapshot entry shows `HasVoted` with an empty vote. -/
theorem own_vote_redacted_witness :
    ∃ m ∈ (redactionDemoRoom.GetState "p1" 0).Players,
      m.ID = "p1" ∧ m.HasVoted = true ∧ m.Vote = "" :=
  own_vote_redacted redactionDemoRoom "p1"
    { ID := "p1", Name := "Alice", Avatar := "sheriff", IsHost := true,
      Vote := "5", HasVoted := true } 0 (by decide) (by decide) (by decide)

/-! ## C5 Average correctness -/

/-- The numeric values among the cast votes, in player-map order. -/
def numericVotes (l : List (String × Player)) : List ℚ :=
  l.filterMap (fun kp => if kp.2.HasVoted then parseFloat? kp.2.Vote else none)

theorem collectVotes_spec (l : List (String × Player)) :
    (collectVotes l).1 =
      (l.filter (fun kp => kp.2.HasVoted)).map (fun kp => (kp.1, kp.2.Vote)) ∧
    (collectVotes l).2.1 = (numericVotes l).sum ∧
    (collectVotes l).2.2 = (numericVotes l).length := by
  induction l with
  | nil => exact ⟨rfl, rfl, rfl⟩
  | cons hd tl ih =>
    obtain ⟨id, p⟩ := hd
    obtain ⟨ih1, ih2, ih3⟩ := ih
    by_cases hv : p.HasVoted = true
    · cases hp : parseFloat? p.Vote with
      | some v =>
        refine ⟨?_, ?_, ?_⟩
        · simpa [collectVotes, hv, hp] using ih1
        · simp [collectVotes, numericVotes, hv, hp, ih2, add_comm]
        · simp [collectVotes, numericVotes, hv, hp, ih3]
      | none =>
        refine ⟨?_, ?_, ?_⟩
        · simpa [collectVotes, hv, hp] using ih1
        · simp [collectVotes, numericVotes, hv, hp, ih2]
        · simp [collectVotes, numericVotes, hv, hp, ih3]
    · refine ⟨?_, ?_, ?_⟩
      · simpa [collectVotes, hv] using ih1
      · simp [collectVotes, numericVotes, hv, ih2]
      · simp [collectVotes, numericVotes, hv, ih3]

theorem average_eq (r : Room) :
    (r.GetVotingResults).Average =
      if numericVotes r.Players = [] then 0
      else (numericVotes r.Players).sum / ((numericVotes r.Players).length : ℚ) := by
  obtain ⟨h1, h2, h3⟩ := collectVotes_spec r.Players
  simp only [Room.GetVotingResults, h2, h3]
  cases hn : numericVotes r.Players with
  | nil => simp
  | cons a tl => simp

theorem parseFloat_three : parseFloat? "3" = some 3 := by
  have h : parseFloat? "3" = some (((1 : Int) : ℚ) * ((3 : Nat) : ℚ)) := rfl
  rw [h]
  norm_num

theorem parseFloat_five : parseFloat? "5" = some 5 := by
  have h : parseFloat? "5" = some (((1 : Int) : ℚ) * ((5 : Nat) : ℚ)) := rfl
  rw [h]
  norm_num

theorem parseFloat_eight : parseFloat? "8" = some 8 := by
  have h : parseFloat? "8" = some (((1 : Int) : ℚ) * ((8 : Nat) : ℚ)) := rfl
  rw [h]
  norm_num

theorem parseFloat_question : parseFloat? "?" = none := rfl

/-- A four-player room that has voted "3", "5", "?", "8" (the spec's
example). -/
def resultsDemoRoom : Room :=
  { Code := "TEST",
    Players := [("p1", { ID := "p1", Name := "P1", Avatar := "sheriff",
                         IsHost := true, Vote := "3", HasVoted := true }),
                ("p2", { ID := "p2", Name := "P2", Avatar := "outlaw",
                         IsHost := false, Vote := "5", HasVoted := true }),
                ("p3", { ID := "p3", Name := "P3", Avatar := "cowgirl",
                         IsHost := false, Vote := "?", HasVoted := true }),
                ("p4", { ID := "p4", Name := "P4", Avatar := "prospector",
                         IsHost := false, Vote := "8", HasVoted := true })],
    Revealed := true, HostID := "p1", CreatedAt := 0, LastActive := 0,
    ExpiryHours := 24, Scale := models.fibonacciScale, TimerEndTime := none,
    TimerAutoReveal := false,
    usedAvatars := ["sheriff", "outlaw", "cowgirl", "prospector"] }

/-- C5: the votes map of `GetVotingResults` holds exactly the players with
`HasVoted = true` (non-numeric tokens such as "?" included); the average is
the sum of the numerically parsable votes divided by their count, and zero
when none parse; on the example votes "3", "5", "?", "8" the average is
(3+5+8)/3. -/
theorem voting_results_correct (r : Room) :
    (∀ id v, (id, v) ∈ (r.GetVotingResults).Votes ↔
      ∃ p : Player, (id, p) ∈ r.Players ∧ p.HasVoted = true ∧ p.Vote = v) ∧
    ((r.GetVotingResults).Average =
      if numericVotes r.Players = [] then 0
      else (numericVotes r.Players).sum / ((numericVotes r.Players).length : ℚ)) ∧
    (r.GetVotingResults).Revealed = r.Revealed ∧
    (resultsDemoRoom.GetVotingResults).Average = (3 + 5 + 8) / 3 := by
  obtain ⟨h1, h2, h3⟩ := collectVotes_spec r.Players
  refine ⟨?_, average_eq r, rfl, ?_⟩
  · intro id v
    simp only [Room.GetVotingResults, h1, List.mem_map, List.mem_filter]
    constructor
    · rintro ⟨⟨id', p⟩, ⟨hmem, hvoted⟩, heq⟩
      simp only [Prod.mk.injEq] at heq
      exact ⟨p, heq.1 ▸ hmem, hvoted, heq.2⟩
    · rintro ⟨p, hmem, hvoted, hvote⟩
      exact ⟨(id, p), ⟨hmem, hvoted⟩, by simp [hvote]⟩
  · have hnv : numericVotes resultsDemoRoom.Players = [3, 5, 8] := by
      simp [numericVotes, resultsDemoRoom, parseFloat_three, parseFloat_five,
        parseFloat_eight, parseFloat_question]
    rw [average_eq resultsDemoRoom, hnv, if_neg (by simp)]
    norm_num

/-! ## C6 Registry capacity rejection -/

theorem generateRoomCode_fresh {rooms : List (String × Room)}
    {entropy : List (List Nat)} {code : String}
    (h : generateRoomCode rooms entropy = some code) :
    containsKey rooms code = false := by
  induction entropy with
  | nil => simp [generateRoomCode] at h
  | cons bs rest ih =>
    by_cases hc : containsKey rooms (candidateCode bs) = true
    · simp [generateRoomCode, hc] at h
      exact ih h
    · simp [generateRoomCode, hc] at h
      subst h
      simpa using hc

/-- The fixed hub used by the hub-level witnesses. -/
def demoHub : Hub := { Rooms := [], DefaultExpiry := 24 }

/-- The room the demo hub creates from entropy bytes `[0, 1, 2]` (hex code
"000102"). -/
def demoCreatedRoom : Room := NewRoomWithScale "000102" 1 "fibonacci" 0

/-- The demo hub after that creation. -/
def demoHubAfter : Hub := { Rooms := [("000102", demoCreatedRoom)], DefaultExpiry := 24 }

/-- C6: a hub at `MaxRooms` rejects `CreateRoomWithScale` with the room map
untouched; below the ceiling every successful creation inserts exactly one
entry, keyed by a freshly generated code that was not previously registered,
and returns the inserted room. -/
theorem create_room_capacity (h : Hub) (e : Int) (st : String)
    (entropy : List (List Nat)) (now : Int) :
    (h.Rooms.length ≥ MaxRooms →
      h.CreateRoomWithScale e st entropy now = (none, h)) ∧
    (∀ room h', h.CreateRoomWithScale e st entropy now = (some room, h') →
      containsKey h.Rooms room.Code = false ∧
      h'.Rooms = h.Rooms ++ [(room.Code, room)] ∧
      h'.DefaultExpiry = h.DefaultExpiry) := by
  constructor
  · intro hge
    simp [Hub.CreateRoomWithScale, hge]
  · intro room h' heq
    unfold Hub.CreateRoomWithScale at heq
    by_cases hge : h.Rooms.length ≥ MaxRooms
    · simp [hge] at heq
    · cases hg : generateRoomCode h.Rooms entropy with
      | none => simp [hge, hg] at heq
      | some code =>
        simp only [if_neg hge, hg, Prod.mk.injEq, Option.some.injEq] at heq
        obtain ⟨hroom, hh'⟩ := heq
        subst hroom
        subst hh'
        have hfresh := generateRoomCode_fresh hg
        have hcode :
            (NewRoomWithScale code (if e ≤ 0 then h.DefaultExpiry else e) st now).Code
              = code := by
          simp [NewRoomWithScale]
        refine ⟨by rw [hcode]; exact hfresh, ?_, rfl⟩
        rw [hcode]
        exact insertKey_of_fresh _ hfresh
  
/-- C6 witness: the empty demo hub (0 < 1000 rooms) successfully creates a
room under the fresh code "000102", appending exactly one entry. -/
theorem create_room_capacity_witness :
    containsKey demoHub.Rooms demoCreatedRoom.Code = false ∧
    demoHubAfter.Rooms = demoHub.Rooms ++ [(demoCreatedRoom.Code, demoCreatedRoom)] ∧
    demoHubAfter.DefaultExpiry = demoHub.DefaultExpiry :=
  (create_room_capacity demoHub 1 "fibonacci" [[0, 1, 2]] 0).2
    demoCreatedRoom demoHubAfter (by decide)

/-! ## C8 Case-insensitive room lookup round-trip -/

theorem toUpper_toUpper_hexDigit (n : Nat) (hn : n < 16) :
    Char.toUpper (Char.toUpper (hexDigit n)) = Char.toUpper (hexDigit n) := by
  interval_cases n <;> decide

theorem asciiUpper_candidateCode (bs : List Nat) :
    asciiUpper (candidateCode bs) = candidateCode bs := by
  unfold candidateCode asciiUpper hexEncode
  refine congrArg String.mk ?_
  rw [List.map_map]
  refine List.map_congr_left ?_
  intro c hc
  simp only [List.mem_flatMap, List.mem_cons] at hc
  obtain ⟨b, _, hc⟩ := hc
  rcases hc with hc | hc | hc
  · subst hc
    exact toUpper_toUpper_hexDigit _ (Nat.div_lt_of_lt_mul (by omega))
  · subst hc
    exact toUpper_toUpper_hexDigit _ (Nat.mod_lt _ (by norm_num))
  · simp at hc

theorem generateRoomCode_shape {rooms : List (String × Room)}
    {entropy : List (List Nat)} {c : String}
    (h : generateRoomCode rooms entropy = some c) :
    ∃ bs, c = candidateCode bs := by
  induction entropy with
  | nil => simp [generateRoomCode] at h
  | cons bs rest ih =>
    by_cases hc : containsKey rooms (candidateCode bs) = true
    · simp [generateRoomCode, hc] at h
      exact ih h
    · simp [generateRoomCode, hc] at h
      exact ⟨bs, h.symm⟩

/-- The hub holding one room under the stored upper-case code "1A". -/
def caseDemoHub : Hub := { Rooms := [("1A", demoCreatedRoom)], DefaultExpiry := 24 }

/-- C8: every code `generateRoomCode` produces is upper-case-stable; a room
stored under such a code is returned by `GetRoom` for every spelling that
upper-cases to it, and `GetRoom` returns nil whenever the upper-cased input
is not a stored key. -/
theorem get_room_case_insensitive (h : Hub) (code s : String) (room : Room) :
    (lookupKey h.Rooms code = some room → asciiUpper s = code →
      h.GetRoom s = some room) ∧
    (lookupKey h.Rooms (asciiUpper s) = none → h.GetRoom s = none) ∧
    (∀ rooms entropy c, generateRoomCode rooms entropy = some c →
      asciiUpper c = c) := by
  refine ⟨?_, ?_, ?_⟩
  · intro hlk hs
    unfold Hub.GetRoom
    rw [hs, hlk]
  · intro hnone
    unfold Hub.GetRoom
    rw [hnone]
  · intro rooms entropy c hg
    obtain ⟨bs, rfl⟩ := generateRoomCode_shape hg
    exact asciiUpper_candidateCode bs

/-- C8 witness: the stored code "1A" is found through the lower-case
spelling "1a". -/
theorem get_room_case_insensitive_witness :
    lookupKey caseDemoHub.Rooms "1A" = some demoCreatedRoom ∧
    asciiUpper "1a" = "1A" ∧
    caseDemoHub.GetRoom "1a" = some demoCreatedRoom :=
  ⟨by decide, by decide,
    (get_room_case_insensitive caseDemoHub "1A" "1a" demoCreatedRoom).1
      (by decide) (by decide)⟩

/-! ## C9 Grace-period conditional deletion -/

theorem lookupKey_eraseKey_of_ne {α : Type} {l : List (String × α)}
    {k c : String} (h : c ≠ k) :
    lookupKey (eraseKey l k) c = lookupKey l c := by
  induction l with
  | nil => rfl
  | cons hd tl ih =>
    obtain ⟨k₀, v₀⟩ := hd
    by_cases hk : k = k₀
    · subst hk
      simp [eraseKey, lookupKey, h]
    · by_cases hc : c = k₀
      · simp [eraseKey, hk, lookupKey, hc]
      · simpa [eraseKey, hk, lookupKey, hc] using ih

/-- A hub holding exactly one, empty, room under "AAAAAA". -/
def emptyRoomHub : Hub :=
  { Rooms := [("AAAAAA", NewRoom "AAAAAA" 24 0)], DefaultExpiry := 24 }

/-- C9: the deferred check of `ScheduleDeleteIfEmpty`, run when the grace
period elapses, deletes the room exactly when a room is still registered
under the code and is still empty (removing only that entry); a room that
gained a player, or was already removed, is left untouched. -/
theorem grace_period_deletion (h : Hub) (code : String) :
    (∀ room, lookupKey h.Rooms code = some room → room.IsEmpty = true →
      (h.ScheduleDeleteIfEmptyCheck code).Rooms = eraseKey h.Rooms code ∧
      ((keysOf h.Rooms).Nodup →
        lookupKey (h.ScheduleDeleteIfEmptyCheck code).Rooms code = none) ∧
      (∀ c, c ≠ code →
        lookupKey (h.ScheduleDeleteIfEmptyCheck code).Rooms c =
          lookupKey h.Rooms c)) ∧
    (∀ room, lookupKey h.Rooms code = some room → room.IsEmpty = false →
      h.ScheduleDeleteIfEmptyCheck code = h) ∧
    (lookupKey h.Rooms code = none → h.ScheduleDeleteIfEmptyCheck code = h) := by
  refine ⟨?_, ?_, ?_⟩
  · intro room hlk hempty
    have hres : (h.ScheduleDeleteIfEmptyCheck code).Rooms = eraseKey h.Rooms code := by
      simp [Hub.ScheduleDeleteIfEmptyCheck, hlk, hempty]
    refine ⟨hres, ?_, ?_⟩
    · intro hnd
      rw [hres]
      exact lookupKey_eraseKey_self hnd
    · intro c hc
      rw [hres]
      exact lookupKey_eraseKey_of_ne hc
  · intro room hlk hfull
    simp [Hub.ScheduleDeleteIfEmptyCheck, hlk, hfull]
  · intro hnone
    simp [Hub.ScheduleDeleteIfEmptyCheck, hnone]

/-- C9 witness: the still-empty room "AAAAAA" is gone after the check. -/
theorem grace_period_deletion_witness :
    (emptyRoomHub.ScheduleDeleteIfEmptyCheck "AAAAAA").Rooms =
      eraseKey emptyRoomHub.Rooms "AAAAAA" ∧
    lookupKey (emptyRoomHub.ScheduleDeleteIfEmptyCheck "AAAAAA").Rooms "AAAAAA" =
      none :=
  ⟨((grace_period_deletion emptyRoomHub "AAAAAA").1 (NewRoom "AAAAAA" 24 0)
      (by decide) (by decide)).1,
   ((grace_period_deletion emptyRoomHub "AAAAAA").1 (NewRoom "AAAAAA" 24 0)
      (by decide) (by decide)).2.1 (by decide)⟩

/-! ## C10 DeleteRoom is case-sensitive although GetRoom is not -/

/-- C10: in a hub whose stored codes are upper-case, `DeleteRoom` called
with a non-upper-case spelling of a registered code removes nothing, while
`GetRoom` with the same string still returns the room. -/
theorem delete_room_case_sensitive (h : Hub) (code s : String) (room : Room)
    (hkeys : ∀ k ∈ keysOf h.Rooms, asciiUpper k = k)
    (hlk : lookupKey h.Rooms code = some room)
    (hs : asciiUpper s = code) (hne : s ≠ code) :
    h.DeleteRoom s = h ∧ h.GetRoom s = some room := by
  have hnotin : s ∉ keysOf h.Rooms := by
    intro hmem
    exact hne ((hkeys s hmem).symm.trans hs)
  have hcont : containsKey h.Rooms s = false := by
    simp [containsKey, lookupKey_eq_none_of_not_mem_keys hnotin]
  constructor
  · unfold Hub.DeleteRoom
    rw [eraseKey_of_not_contains hcont]
  · unfold Hub.GetRoom
    rw [hs, hlk]

/-- C10 witness: deleting by "1a" leaves the hub unchanged even though
looking up "1a" finds the room stored under "1A". -/
theorem delete_room_case_sensitive_witness :
    caseDemoHub.DeleteRoom "1a" = caseDemoHub ∧
    caseDemoHub.GetRoom "1a" = some demoCreatedRoom :=
  delete_room_case_sensitive caseDemoHub "1A" "1a" demoCreatedRoom
    (by decide) (by decide) (by decide) (by decide)

/-! ## C1 Host uniqueness invariant -/

theorem lookupKey_isSome_of_mem_keys {α : Type} {l : List (String × α)}
    {k : String} (h : k ∈ keysOf l) : (lookupKey l k).isSome := by
  induction l with
  | nil => simp [keysOf] at h
  | cons hd tl ih =>
    obtain ⟨k₀, v₀⟩ := hd
    by_cases hk : k = k₀
    · simp [lookupKey, hk]
    · simp [keysOf, hk] at h
      simpa [lookupKey, hk] using ih (by simpa [keysOf] using h)

theorem not_mem_keys_of_not_contains {α : Type} {l : List (String × α)}
    {k : String} (h : containsKey l k = false) : k ∉ keysOf l := by
  intro hmem
  have := lookupKey_isSome_of_mem_keys hmem
  simp [containsKey] at h
  simp [h] at this

theorem containsKey_append_left {α : Type} {l l' : List (String × α)}
    {k : String} (h : containsKey l k = true) :
    containsKey (l ++ l') k = true := by
  induction l with
  | nil => simp [containsKey, lookupKey] at h
  | cons hd tl ih =>
    obtain ⟨k₀, v₀⟩ := hd
    by_cases hk : k = k₀
    · simp [containsKey, lookupKey, hk]
    · simp [containsKey, lookupKey, hk] at h ⊢
      exact ih h

theorem mem_key_unique {α : Type} {l : List (String × α)}
    (hnd : (keysOf l).Nodup) {k : String} {a b : α}
    (ha : (k, a) ∈ l) (hb : (k, b) ∈ l) : a = b := by
  induction l with
  | nil => simp at ha
  | cons hd tl ih =>
    obtain ⟨k₀, v₀⟩ := hd
    simp only [keysOf, List.map_cons, List.nodup_cons] at hnd
    rcases List.mem_cons.1 ha with ha' | ha' <;>
      rcases List.mem_cons.1 hb with hb' | hb'
    · rw [← ha'] at hb'
      exact (Prod.mk.injEq _ _ _ _ ▸ hb').2.symm
    · exfalso
      apply hnd.1
      rw [show k₀ = k from (Prod.mk.injEq _ _ _ _ ▸ ha').1.symm]
      exact List.mem_map.2 ⟨(k, b), hb', rfl⟩
    · exfalso
      apply hnd.1
      rw [show k₀ = k from (Prod.mk.injEq _ _ _ _ ▸ hb').1.symm]
      exact List.mem_map.2 ⟨(k, a), ha', rfl⟩
    · exact ih (by simpa [keysOf] using hnd.2) ha' hb'

/-- The inductive invariant tying `HostID` to the `IsHost` flags: keys are
distinct, each player record's ID matches its key, a non-empty room's
`HostID` is a live key, and a player is flagged host exactly when its key is
`HostID`. -/
def hostInv (r : Room) : Prop :=
  (keysOf r.Players).Nodup ∧
  (∀ kp ∈ r.Players, kp.2.ID = kp.1) ∧
  (r.Players ≠ [] → containsKey r.Players r.HostID = true) ∧
  (∀ kp ∈ r.Players, kp.2.IsHost = true ↔ kp.1 = r.HostID)

/-- The claim's conclusion: a non-empty room has exactly one host, whose ID
is the room's `HostID`; an empty room has no host. -/
def hostUnique (r : Room) : Prop :=
  (r.Players ≠ [] → ∃ kp, kp ∈ r.Players ∧ kp.2.IsHost = true ∧
    kp.2.ID = r.HostID ∧ ∀ kq ∈ r.Players, kq.2.IsHost = true → kq = kp) ∧
  (r.Players = [] → ∀ kp ∈ r.Players, kp.2.IsHost = false)

theorem hostInv_hostUnique {r : Room} (h : hostInv r) : hostUnique r := by
  obtain ⟨hnd, hid, hcont, hhost⟩ := h
  constructor
  · intro hne
    have hsome := hcont hne
    simp only [containsKey, Option.isSome_iff_exists] at hsome
    obtain ⟨v, hv⟩ := hsome
    have hmem : (r.HostID, v) ∈ r.Players := mem_of_lookupKey_eq_some hv
    refine ⟨(r.HostID, v), hmem, (hhost _ hmem).2 rfl, hid _ hmem, ?_⟩
    intro kq hkq hq
    have hkey : kq.1 = r.HostID := (hhost _ hkq).1 hq
    obtain ⟨k₁, q⟩ := kq
    simp only at hkey
    subst hkey
    rw [mem_key_unique hnd hkq hmem]
  · intro he
    rw [he]
    intro kp hkp
    simp at hkp

theorem hostInv_NewRoom (code : String) (e now : Int) :
    hostInv (NewRoom code e now) := by
  refine ⟨?_, ?_, ?_, ?_⟩ <;> simp [NewRoom, keysOf]

theorem hostInv_AddPlayer (r : Room) (p : Player) (ri rs : Nat) (now : Int)
    (hp : p.IsHost = false) (hfresh : containsKey r.Players p.ID = false)
    (hinv : hostInv r) : hostInv (r.AddPlayer p ri rs now).2 := by
  obtain ⟨hnd, hid, hcont, hhost⟩ := hinv
  unfold Room.AddPlayer
  by_cases hcap : r.Players.length ≥ MaxPlayers
  · simpa [hcap] using ⟨hnd, hid, hcont, hhost⟩
  · simp only [if_neg hcap]
    by_cases hempty : r.Players.length = 0
    · have hnil : r.Players = [] := List.length_eq_zero.1 hempty
      simp only [if_pos hempty]
      refine ⟨?_, ?_, ?_, ?_⟩ <;>
        simp [hnil, insertKey, keysOf, containsKey, lookupKey]
    · simp only [if_neg hempty]
      have hne : r.Players ≠ [] := by
        intro h0
        exact hempty (by rw [h0]; rfl)
      have hnotin : p.ID ∉ keysOf r.Players := not_mem_keys_of_not_contains hfresh
      have happ :
          insertKey r.Players p.ID { p with Avatar := (assignAvatar r.usedAvatars ri rs).1 }
            = r.Players ++ [(p.ID, { p with Avatar := (assignAvatar r.usedAvatars ri rs).1 })] :=
        insertKey_of_fresh _ hfresh
      have hhostne : p.ID ≠ r.HostID := by
        intro hbad
        apply hnotin
        rw [hbad]
        have := hcont hne
        simp only [containsKey] at this
        exact mem_keys_of_lookupKey_isSome (by simp [this])
      refine ⟨?_, ?_, ?_, ?_⟩
      · show (keysOf (insertKey r.Players _ _)).Nodup
        rw [happ]
        simp only [keysOf, List.map_append, List.map_cons, List.map_nil]
        rw [List.nodup_append]
        refine ⟨hnd, List.nodup_singleton _, ?_⟩
        intro x hx hx'
        simp only [List.mem_singleton] at hx'
        subst hx'
        exact hnotin hx
      · intro kp hkp
        rw [happ] at hkp
        rcases List.mem_append.1 hkp with h | h
        · exact hid kp h
        · simp at h
          rw [h]
      · intro _
        show containsKey (insertKey r.Players _ _) r.HostID = true
        rw [happ]
        exact containsKey_append_left (hcont hne)
      · intro kp hkp
        rw [happ] at hkp
        rcases List.mem_append.1 hkp with h | h
        · exact hhost kp h
        · simp at h
          rw [h]
          simp [hp, hhostne]

theorem hostInv_RemovePlayer (r : Room) (id : String) (now : Int)
    (hinv : hostInv r) : hostInv (r.RemovePlayer id now) := by
  obtain ⟨hnd, hid, hcont, hhost⟩ := hinv
  unfold Room.RemovePlayer
  cases hlk : lookupKey r.Players id with
  | none => exact ⟨hnd, hid, hcont, hhost⟩
  | some player =>
    simp only
    by_cases hh : r.HostID = id
    · simp only [if_pos hh]
      cases hps : eraseKey r.Players id with
      | nil =>
        refine ⟨?_, ?_, ?_, ?_⟩ <;> simp [keysOf]
      | cons hd rest =>
        obtain ⟨pid, q⟩ := hd
        have hnd' : (keysOf ((pid, q) :: rest)).Nodup := by
          rw [← hps]
          exact keysOf_eraseKey_nodup hnd
        simp only [keysOf, List.map_cons, List.nodup_cons] at hnd'
        refine ⟨?_, ?_, ?_, ?_⟩
        · simpa [keysOf] using hnd'
        · intro kp hkp
          rcases List.mem_cons.1 hkp with hcase | hcase
          · rw [hcase]
            exact hid (pid, q) (mem_of_mem_eraseKey (hps ▸ List.mem_cons_self _ _))
          · exact hid kp (mem_of_mem_eraseKey (hps ▸ List.mem_cons_of_mem _ hcase))
        · intro _
          simp [containsKey, lookupKey]
        · intro kp hkp
          rcases List.mem_cons.1 hkp with hcase | hcase
          · rw [hcase]
            simp
          · have hmem : kp ∈ r.Players :=
              mem_of_mem_eraseKey (hps ▸ List.mem_cons_of_mem _ hcase)
            have hkey_ne : kp.1 ≠ id :=
              key_ne_of_mem_eraseKey hnd (hps ▸ List.mem_cons_of_mem _ hcase)
            have hfalse : kp.2.IsHost = false := by
              cases hIs : kp.2.IsHost
              · rfl
              · exact absurd (hh ▸ (hhost kp hmem).1 hIs) hkey_ne
            have hkp_ne_pid : kp.1 ≠ pid := by
              intro hbad
              exact hnd'.1 (hbad ▸ List.mem_map.2 ⟨kp, hcase, rfl⟩)
            simp [hfalse, hkp_ne_pid]
    · simp only [if_neg hh]
      refine ⟨keysOf_eraseKey_nodup hnd, ?_, ?_, ?_⟩
      · intro kp hkp
        exact hid kp (mem_of_mem_eraseKey hkp)
      · intro hne
        have hlne : r.Players ≠ [] := by
          intro h0
          rw [h0] at hlk
          simp [lookupKey] at hlk
        show containsKey (eraseKey r.Players id) r.HostID = true
        rw [containsKey_eraseKey_of_ne hh]
        exact hcont hlne
      · intro kp hkp
        exact hhost kp (mem_of_mem_eraseKey hkp)

theorem hostInv_applyOp (r : Room) (op : RoomOp) (hwf : wfOp r op = true)
    (hinv : hostInv r) : hostInv (applyOp r op) := by
  cases op with
  | addP p ri rs t =>
    simp only [wfOp, Bool.and_eq_true, Bool.not_eq_true'] at hwf
    exact hostInv_AddPlayer r p ri rs t hwf.1 hwf.2 hinv
  | removeP id t => exact hostInv_RemovePlayer r id t hinv

theorem hostInv_runOps (ops : List RoomOp) :
    ∀ r, hostInv r → wfTrace r ops = true → hostInv (runOps r ops) := by
  induction ops with
  | nil => exact fun r h _ => h
  | cons op rest ih =>
    intro r h hwf
    simp only [wfTrace, Bool.and_eq_true] at hwf
    exact ih _ (hostInv_applyOp r op hwf.1 h) hwf.2

/-- C1: along every well-formed sequence of `AddPlayer`/`RemovePlayer`
operations from a fresh room (players arrive non-host under fresh IDs), a
non-empty room has exactly one player with `IsHost = true`, whose ID equals
`HostID`, and an empty room has none; moreover the first player added to a
fresh room becomes host. -/
theorem host_uniqueness (code : String) (e now : Int) (ops : List RoomOp)
    (hwf : wfTrace (NewRoom code e now) ops = true) :
    hostUnique (runOps (NewRoom code e now) ops) ∧
    (∀ p ri rs t, ((NewRoom code e now).AddPlayer p ri rs t).2.HostID = p.ID ∧
      ∃ q, lookupKey ((NewRoom code e now).AddPlayer p ri rs t).2.Players p.ID =
        some q ∧ q.IsHost = true) := by
  constructor
  · exact hostInv_hostUnique
      (hostInv_runOps ops _ (hostInv_NewRoom code e now) hwf)
  · intro p ri rs t
    constructor
    · simp [Room.AddPlayer, NewRoom, MaxPlayers]
    · refine ⟨{ p with Avatar := (assignAvatar [] ri rs).1, IsHost := true }, ?_, rfl⟩
      simp [Room.AddPlayer, NewRoom, MaxPlayers, insertKey, lookupKey]

/-- C1 witness: add two players then remove the host; the run is well-formed
and the resulting one-player room satisfies host uniqueness (the survivor
was promoted). -/
theorem host_uniqueness_witness :
    wfTrace (NewRoom "TEST" 24 0)
      [.addP (demoPlayer "p1" "Alice") 0 0 1, .addP (demoPlayer "p2" "Bob") 0 0 2,
       .removeP "p1" 3] = true ∧
    hostUnique (runOps (NewRoom "TEST" 24 0)
      [.addP (demoPlayer "p1" "Alice") 0 0 1, .addP (demoPlayer "p2" "Bob") 0 0 2,
       .removeP "p1" 3]) :=
  ⟨by decide,
    (host_uniqueness "TEST" 24 0
      [.addP (demoPlayer "p1" "Alice") 0 0 1, .addP (demoPlayer "p2" "Bob") 0 0 2,
       .removeP "p1" 3] (by decide)).1⟩
